import Mathlib

/-!
Verification of the SimplePlayback repository (src/main.cpp, src/player.h,
src/networkReader.h) against its natural-language specification.

The C++ code is shallowly embedded: `double` mixing levels become exact
rationals (ℚ), `char`/`int16_t` machine values become `Int` with explicit
wrapping where a narrowing conversion occurs, buffers become lists of byte
values, and the recursive `Player::play` pump becomes a terminating Lean
function that returns the trace of per-cycle effects (reads, stats record,
sink write) together with the final object state.
-/

/-- Two's-complement wrap of an integer into the signed 8-bit `char` range
[-128, 127]; models the implementation-defined int→char narrowing that
occurs in `mix[pos] = (char)bit` and `mix[pos] += (char)bit`
(src/player.h lines 116-123). -/
def wrap8 (n : Int) : Int := (n + 128) % 256 - 128

/-- Two's-complement wrap into the signed 16-bit range [-32768, 32767];
models the `(int16_t)` cast in `writtenSamples += (int16_t)(...)`
(src/player.h line 110). -/
def wrap16 (n : Int) : Int := (n + 32768) % 65536 - 32768

/-- Truncation toward zero of a rational, modelling the C++ float→integer
conversion applied by `(char)bit` where `bit` is a `double`. -/
def truncQ (q : ℚ) : Int := Int.tdiv q.num (q.den : Int)

/-- The value stored by `mix[pos] = (char)bit` (src/player.h line 116):
the double is truncated toward zero and narrowed to a signed char. -/
def charOfQ (q : ℚ) : Int := wrap8 (truncQ q)

/-- Player::setMixingLevel (src/player.h lines 161-171): clamps the level
into [-1, 1] (two successive conditional assignments) and returns the pair
(networkLevel, playerLevel) = ((1 - level)/2, (1 + level)/2). `double`
arithmetic is modelled exactly over ℚ. -/
def Player.setMixingLevel (level : ℚ) : ℚ × ℚ :=
  let level1 := if level ≤ -1 then -1 else level
  let level2 := if level1 ≥ 1 then 1 else level1
  ((1 - level2) / 2, (1 + level2) / 2)

/-- Result of one call to a source's `read`: bytes actually returned, the
new cursor value, and the samples copied into the caller's buffer. -/
structure ReadResult where
  bytes : Nat
  newIndex : Nat
  data : List Int
  deriving DecidableEq, Repr

/-- NetworkReader::read (src/networkReader.h lines 60-79), cursor and data
semantics. The rate-model sleep only delays the return and is dropped from
the embedding; `m_saw` is the sample list, `m_sawIndex` the cursor. -/
def NetworkReader.read (saw : List Int) (idx : Nat) (maxBytes : Nat) : ReadResult :=
  let blockSize := 8192 * 4
  let samplesRemaining := saw.length - idx
  if samplesRemaining = 0 then
    ⟨0, idx, []⟩
  else
    let maxReadSize := min (min maxBytes blockSize) (samplesRemaining * 2)
    let nSamples := maxReadSize / 2
    ⟨nSamples * 2, idx + nSamples, (saw.drop idx).take nSamples⟩

/-- Player::read (src/player.h lines 211-225): textually the same cursor
arithmetic as NetworkReader::read (blockSize 8192*4, remaining-samples
check, min of maxBytes/blockSize/remaining bytes, copy, advance). -/
def Player.read (saw : List Int) (idx : Nat) (maxBytes : Nat) : ReadResult :=
  let blockSize := 8192 * 4
  let samplesRemaining := saw.length - idx
  if samplesRemaining = 0 then
    ⟨0, idx, []⟩
  else
    let maxReadSize := min (min maxBytes blockSize) (samplesRemaining * 2)
    let nSamples := maxReadSize / 2
    ⟨nSamples * 2, idx + nSamples, (saw.drop idx).take nSamples⟩

/-- Accumulated result of a sequence of `read` calls on one source:
total samples returned, final cursor, and the concatenation of all data
returned, in order. -/
structure SessionResult where
  samples : Nat
  finalIndex : Nat
  data : List Int
  deriving DecidableEq, Repr

/-- Run a list of `read` requests (each entry a `maxBytes` value) against a
source, threading the cursor exactly as the member `m_sawIndex` is threaded
between calls in the C++ objects. -/
def runReads (saw : List Int) (idx : Nat) : List Nat → SessionResult
  | [] => ⟨0, idx, []⟩
  | r :: rs =>
    let s := NetworkReader.read saw idx r
    let rest := runReads saw s.newIndex rs
    ⟨s.bytes / 2 + rest.samples, rest.finalIndex, s.data ++ rest.data⟩

-- Basic facts about a single read step.

theorem read_newIndex (saw : List Int) (idx mb : Nat) :
    (NetworkReader.read saw idx mb).newIndex = idx + (NetworkReader.read saw idx mb).bytes / 2 := by
  simp only [NetworkReader.read]
  split <;> simp [Nat.mul_div_cancel]

theorem read_idx_le (saw : List Int) (idx mb : Nat) :
    idx ≤ (NetworkReader.read saw idx mb).newIndex := by
  rw [read_newIndex]; omega

theorem read_newIndex_le_length (saw : List Int) (idx mb : Nat) (h : idx ≤ saw.length) :
    (NetworkReader.read saw idx mb).newIndex ≤ saw.length := by
  simp only [NetworkReader.read]
  split
  · simpa using h
  · simp only
    have h1 : min (min mb (8192 * 4)) ((saw.length - idx) * 2) ≤ (saw.length - idx) * 2 :=
      min_le_right _ _
    omega

theorem read_bytes_le (saw : List Int) (idx mb : Nat) :
    (NetworkReader.read saw idx mb).bytes ≤ mb := by
  simp only [NetworkReader.read]
  split
  · simp
  · simp only
    have h1 : min (min mb (8192 * 4)) ((saw.length - idx) * 2) ≤ mb :=
      le_trans (min_le_left _ _) (min_le_left _ _)
    omega

theorem read_data_eq (saw : List Int) (idx mb : Nat) :
    (NetworkReader.read saw idx mb).data
      = (saw.drop idx).take ((NetworkReader.read saw idx mb).bytes / 2) := by
  simp only [NetworkReader.read]
  split <;> simp [Nat.mul_div_cancel]

theorem read_pos_of_two_le (saw : List Int) (idx mb : Nat)
    (hmb : 2 ≤ mb) (hlt : idx < saw.length) :
    (NetworkReader.read saw idx mb).bytes ≠ 0 := by
  simp only [NetworkReader.read]
  have hrem : ¬ (saw.length - idx = 0) := by omega
  rw [if_neg hrem]
  simp only
  have h1 : 2 ≤ min (min mb (8192 * 4)) ((saw.length - idx) * 2) := by
    have h2 : 1 ≤ saw.length - idx := by omega
    have h3 : 2 ≤ min mb (8192 * 4) := by omega
    omega
  omega

theorem read_zero_at_eos (saw : List Int) (idx mb : Nat) (h : saw.length ≤ idx) :
    NetworkReader.read saw idx mb = ⟨0, idx, []⟩ := by
  simp only [NetworkReader.read]
  have h0 : saw.length - idx = 0 := by omega
  simp [h0]

/-- Core accounting for a read session: the samples returned count exactly
the cursor advance, the cursor never moves backwards, and the data returned
is exactly the contiguous segment of the source between the two cursor
positions. -/
theorem runReads_spec (saw : List Int) (reqs : List Nat) : ∀ idx : Nat,
    (runReads saw idx reqs).samples = (runReads saw idx reqs).finalIndex - idx
    ∧ idx ≤ (runReads saw idx reqs).finalIndex
    ∧ (runReads saw idx reqs).data
        = (saw.drop idx).take ((runReads saw idx reqs).finalIndex - idx) := by
  induction reqs with
  | nil => intro idx; simp [runReads]
  | cons r rs ih =>
    intro idx
    simp only [runReads]
    obtain ⟨ih1, ih2, ih3⟩ := ih (NetworkReader.read saw idx r).newIndex
    have hni := read_newIndex saw idx r
    have hd := read_data_eq saw idx r
    refine ⟨by omega, by omega, ?_⟩
    rw [ih3, hd]
    have harith : (runReads saw (NetworkReader.read saw idx r).newIndex rs).finalIndex - idx
        = (NetworkReader.read saw idx r).bytes / 2
          + ((runReads saw (NetworkReader.read saw idx r).newIndex rs).finalIndex
              - (NetworkReader.read saw idx r).newIndex) := by omega
    have hstep : (saw.drop idx).drop ((NetworkReader.read saw idx r).bytes / 2)
        = saw.drop (NetworkReader.read saw idx r).newIndex := by
      rw [List.drop_drop]
      congr 1
      omega
    rw [harith, List.take_add, hstep]

theorem read_progress (saw : List Int) (idx mb : Nat)
    (h : (NetworkReader.read saw idx mb).bytes ≠ 0) :
    idx < (NetworkReader.read saw idx mb).newIndex
    ∧ (NetworkReader.read saw idx mb).newIndex ≤ saw.length := by
  simp only [NetworkReader.read] at h ⊢
  by_cases hrem : saw.length - idx = 0
  · rw [if_pos hrem] at h
    simp at h
  · rw [if_neg hrem] at h ⊢
    simp only at h ⊢
    have hmin : min (min mb (8192 * 4)) ((saw.length - idx) * 2) ≤ (saw.length - idx) * 2 :=
      min_le_right _ _
    omega

/-- The mutable state of the `Player` object (src/player.h lines 14-45)
together with the internals of its `net::NetworkReader` member `nr`
(src/networkReader.h lines 148-156): mixing levels, the two sample vectors
with their read cursors, the per-cycle byte budgets set by `open`, the
running sample counter written to the stats file, and the pause bookkeeping
fields. `writtenSamples` is an `int` (kept as unbounded `Int`; its
increments go through an `int16_t` cast modelled by `wrap16`). -/
structure Player where
  networkLevel : ℚ
  playerLevel : ℚ
  m_saw : List Int
  m_sawIndex : Nat
  nr_saw : List Int
  nr_sawIndex : Nat
  networkBytes : Nat
  playerBytes : Nat
  writtenSamples : Int
  timePaused : Nat
  pausedSample : Int
  paused : Bool
  deriving DecidableEq, Repr

/-- Player::pause (src/player.h lines 144-152): sets the paused flag and
snapshots the stopwatch value and the current sample counter. The source
cursors are untouched. -/
def Player.pause (now : Nat) (ps : Player) : Player :=
  { ps with paused := true, timePaused := now, pausedSample := ps.writtenSamples }

/-- The externally visible effects of one pump cycle of Player::play
(src/player.h lines 97-139): the bytes returned by the two source reads,
the stats record written (stopwatch milliseconds and the updated
`writtenSamples`), and the number of bytes passed to `sink.write`
(`2*(networkRead + playerRead)`). -/
structure PumpCycle where
  networkRead : Nat
  playerRead : Nat
  statsElapsed : Nat
  statsSamples : Int
  sinkBytes : Nat
  deriving DecidableEq, Repr, Inhabited

/-- Player::play (src/player.h lines 97-139) run sequentially: each
invocation clears `paused`, reads from the network reader and from the
file source, adds `(int16_t)(playerRead/2 + networkRead/2)` to
`writtenSamples`, writes one stats record and `2*(networkRead+playerRead)`
bytes of mix to the sink, and — after the writes — returns if both reads
were zero, else recurses (the `!paused` guard sees the `false` just
assigned, since nothing in the sequential body sets it back).
`clock k` is the stopwatch reading observed by cycle number `k`; the
function returns the trace of cycles plus the final object state. -/
def Player.play (clock : Nat → Nat) (k : Nat) (ps : Player) : List PumpCycle × Player :=
  let nRes := NetworkReader.read ps.nr_saw ps.nr_sawIndex ps.networkBytes
  let pRes := Player.read ps.m_saw ps.m_sawIndex ps.playerBytes
  let networkRead := nRes.bytes
  let playerRead := pRes.bytes
  let ws := ps.writtenSamples + wrap16 ((playerRead / 2 : Nat) + (networkRead / 2 : Nat))
  let rec0 : PumpCycle := ⟨networkRead, playerRead, clock k, ws, 2 * (networkRead + playerRead)⟩
  let ps' : Player := { ps with
    paused := false
    nr_sawIndex := nRes.newIndex
    m_sawIndex := pRes.newIndex
    writtenSamples := ws }
  if playerRead = 0 ∧ networkRead = 0 then
    ([rec0], ps')
  else if ps'.paused then
    ([rec0], ps')
  else
    let next := Player.play clock (k + 1) ps'
    (rec0 :: next.1, next.2)
termination_by (ps.nr_saw.length - ps.nr_sawIndex) + (ps.m_saw.length - ps.m_sawIndex)
decreasing_by
  rename_i hnotboth hpause
  have hnb : ¬((NetworkReader.read ps.m_saw ps.m_sawIndex ps.playerBytes).bytes = 0
      ∧ (NetworkReader.read ps.nr_saw ps.nr_sawIndex ps.networkBytes).bytes = 0) := hnotboth
  show ps.nr_saw.length - (NetworkReader.read ps.nr_saw ps.nr_sawIndex ps.networkBytes).newIndex
      + (ps.m_saw.length - (NetworkReader.read ps.m_saw ps.m_sawIndex ps.playerBytes).newIndex)
      < ps.nr_saw.length - ps.nr_sawIndex + (ps.m_saw.length - ps.m_sawIndex)
  have hn1 := read_newIndex ps.nr_saw ps.nr_sawIndex ps.networkBytes
  have hp1 := read_newIndex ps.m_saw ps.m_sawIndex ps.playerBytes
  by_cases ha : (NetworkReader.read ps.nr_saw ps.nr_sawIndex ps.networkBytes).bytes = 0
  · have hb : (NetworkReader.read ps.m_saw ps.m_sawIndex ps.playerBytes).bytes ≠ 0 := by tauto
    have hprog := read_progress ps.m_saw ps.m_sawIndex ps.playerBytes hb
    omega
  · have hprog := read_progress ps.nr_saw ps.nr_sawIndex ps.networkBytes ha
    by_cases hb : (NetworkReader.read ps.m_saw ps.m_sawIndex ps.playerBytes).bytes = 0
    · omega
    · have hprog2 := read_progress ps.m_saw ps.m_sawIndex ps.playerBytes hb
      omega

/-- Possible outcomes of loading an input waveform file. The constructor
`openError` is the recoverable error value the specification requires;
it is included so the spec's claim is expressible, while the embedded code
below only ever produces `ok` or `processExit`. -/
inductive OpenOutcome where
  | ok (samples : List Int)
  | openError
  | processExit (code : Nat)
  deriving DecidableEq, Repr

/-- Player::init (src/player.h lines 175-197): opens
"audio1_s16le_mono_48k.raw"; on success reads the whole file into `m_saw`;
if the file cannot be opened it prints an error and calls `exit(1)`,
terminating the process. The file system is abstracted as
`Option (List Int)`: `none` when the file cannot be opened, `some samples`
for its decoded 16-bit contents. -/
def Player.init (file : Option (List Int)) : OpenOutcome :=
  match file with
  | some samples => OpenOutcome.ok samples
  | none => OpenOutcome.processExit 1

/-- NetworkReader::initWaveform (src/networkReader.h lines 89-108): same
shape as Player::init for "audio2_s16le_mono_48k.raw" — read the file into
`m_saw` if it opens, otherwise print a message and `exit(1)`. -/
def NetworkReader.initWaveform (file : Option (List Int)) : OpenOutcome :=
  match file with
  | some samples => OpenOutcome.ok samples
  | none => OpenOutcome.processExit 1

/-- The configuration produced by Player::open (src/player.h lines 58-79):
which files are touched and the fixed buffer sizes and default mixing
levels it installs. `networkFile` is the name hard-coded in
NetworkReader::initWaveform (the reader member is constructed inside the
Player object); `initFile` is the name hard-coded in Player::init. -/
structure OpenEffects where
  sinkFile : String
  statsFile : String
  networkBytes : Nat
  playerBytes : Nat
  initFile : String
  networkFile : String
  levels : ℚ × ℚ
  deriving DecidableEq, Repr

/-- Player::open (src/player.h lines 58-79). Its two parameters
`networkUrl` and `filename` appear nowhere in the body (the header even
carries `@warning args are not used`): the sink files, the 72-sample
(144-byte) buffers, the input file names and the default mixing level 0
are all hard-coded. -/
def Player.openPlayer (networkUrl filename : String) : OpenEffects :=
  { sinkFile := "audio_output.raw"
    statsFile := "realtime_stats.txt"
    networkBytes := 72 * 2
    playerBytes := 72 * 2
    initFile := "audio1_s16le_mono_48k.raw"
    networkFile := "audio2_s16le_mono_48k.raw"
    levels := Player.setMixingLevel 0 }

/-- First mixing loop of Player::play (src/player.h lines 113-118): for
each byte index `i` below `networkRead`, compute
`bit = networkLevel * (double)networkBuffer[i]` and store `(char)bit` at
mix positions `2*i` and `2*i+1`. The mix buffer is a map from byte
position to `Option Int`, `none` meaning the freshly allocated byte is
still uninitialized. -/
def stamp1 (networkLevel : ℚ) (networkBuffer : List Int) (i : Nat)
    (m : Nat → Option Int) : Nat → Option Int :=
  let bit := networkLevel * (networkBuffer.getD i 0 : ℚ)
  fun p => if p = 2 * i ∨ p = 2 * i + 1 then some (charOfQ bit) else m p

/-- Second mixing loop of Player::play (src/player.h lines 119-124): for
each byte index `i` below `playerRead`, compute
`bit = playerLevel * (double)playerBuffer[i]` and do `mix[pos] += (char)bit`
at positions `2*i` and `2*i+1`; `+=` on an uninitialized byte stays
unknown (`none`), and on a known byte wraps through the char range. -/
def stamp2 (playerLevel : ℚ) (playerBuffer : List Int) (i : Nat)
    (m : Nat → Option Int) : Nat → Option Int :=
  let bit := playerLevel * (playerBuffer.getD i 0 : ℚ)
  fun p => if p = 2 * i ∨ p = 2 * i + 1 then (m p).map (fun o => wrap8 (o + charOfQ bit)) else m p

/-- The mix buffer contents after both loops of Player::play, starting
from the freshly `new`-allocated (uninitialized) buffer. -/
def mixBuffer (networkLevel playerLevel : ℚ) (networkBuffer playerBuffer : List Int) :
    Nat → Option Int :=
  let afterLoop1 := (List.range networkBuffer.length).foldl
    (fun m i => stamp1 networkLevel networkBuffer i m) (fun _ => none)
  (List.range playerBuffer.length).foldl
    (fun m i => stamp2 playerLevel playerBuffer i m) afterLoop1

/-- The bytes Player::play hands to `sink.write(mix, 2*(networkRead +
playerRead))` (src/player.h line 131): the first
`2*(networkRead + playerRead)` bytes of the mix buffer, in order. -/
def emittedBytes (networkLevel playerLevel : ℚ) (networkBuffer playerBuffer : List Int) :
    List (Option Int) :=
  (List.range (2 * (networkBuffer.length + playerBuffer.length))).map
    (mixBuffer networkLevel playerLevel networkBuffer playerBuffer)

/-- Little-endian signed-char byte pair of a 16-bit sample value, as
`read` lays it down in the char buffers (S16LE format). -/
def sampleBytes (v : Int) : List Int := [wrap8 v, wrap8 (Int.fdiv v 256)]

/-- Byte image of a sample sequence in the S16LE buffers. -/
def bytesOfSamples (samples : List Int) : List Int := (samples.map sampleBytes).flatten

/-- Modelled from the spec (§4.2 step 5): clamp a mixed value to the
signed 16-bit range. -/
def clamp16 (n : Int) : Int := max (-32768) (min 32767 n)

/-- Modelled from the spec (§4.2 steps 4-5): the per-sample mixing law the
specification prescribes — `round(networkGain*networkSample[i] +
localGain*localSample[i])` clamped to 16-bit, one stereo MixFrame per
index below `max` of the sample counts, a missing source contributing
silence. Stated here only to compare against the code's behaviour. -/
def specMixFrames (networkGain localGain : ℚ) (networkSamples localSamples : List Int) :
    List (Int × Int) :=
  (List.range (max networkSamples.length localSamples.length)).map fun i =>
    let mixed := clamp16 (round (networkGain * (networkSamples.getD i 0 : ℚ)
      + localGain * (localSamples.getD i 0 : ℚ)))
    (mixed, mixed)

/-- S16LE byte stream of a stereo frame sequence (interleaved L,R). -/
def framesToBytes (frames : List (Int × Int)) : List Int :=
  (frames.map (fun f => sampleBytes f.1 ++ sampleBytes f.2)).flatten

theorem stamp1_apply (nl : ℚ) (nb : List Int) (i : Nat) (m : Nat → Option Int) (p : Nat) :
    stamp1 nl nb i m p
      = if p = 2 * i ∨ p = 2 * i + 1 then some (charOfQ (nl * (nb.getD i 0 : ℚ))) else m p := rfl

theorem stamp2_apply (pl : ℚ) (pb : List Int) (i : Nat) (m : Nat → Option Int) (p : Nat) :
    stamp2 pl pb i m p
      = if p = 2 * i ∨ p = 2 * i + 1 then
          (m p).map (fun o => wrap8 (o + charOfQ (pl * (pb.getD i 0 : ℚ))))
        else m p := rfl

theorem mixLoop1_apply (nl : ℚ) (nb : List Int) (n : Nat) (m0 : Nat → Option Int) (p : Nat) :
    ((List.range n).foldl (fun m i => stamp1 nl nb i m) m0) p
      = if p / 2 < n then some (charOfQ (nl * (nb.getD (p / 2) 0 : ℚ))) else m0 p := by
  induction n with
  | zero => simp
  | succ n ih =>
    rw [List.range_succ, List.foldl_append]
    simp only [List.foldl_cons, List.foldl_nil]
    by_cases hp : p = 2 * n ∨ p = 2 * n + 1
    · have hdiv : p / 2 = n := by omega
      rw [stamp1_apply, if_pos hp, hdiv, if_pos (Nat.lt_succ_self n)]
    · rw [stamp1_apply, if_neg hp, ih]
      have hne : p / 2 ≠ n := by omega
      by_cases hlt : p / 2 < n
      · rw [if_pos hlt, if_pos (by omega : p / 2 < n + 1)]
      · rw [if_neg hlt, if_neg (by omega : ¬ p / 2 < n + 1)]

theorem mixLoop2_apply (pl : ℚ) (pb : List Int) (n : Nat) (m0 : Nat → Option Int) (p : Nat) :
    ((List.range n).foldl (fun m i => stamp2 pl pb i m) m0) p
      = if p / 2 < n then
          (m0 p).map (fun o => wrap8 (o + charOfQ (pl * (pb.getD (p / 2) 0 : ℚ))))
        else m0 p := by
  induction n with
  | zero => simp
  | succ n ih =>
    rw [List.range_succ, List.foldl_append]
    simp only [List.foldl_cons, List.foldl_nil]
    by_cases hp : p = 2 * n ∨ p = 2 * n + 1
    · have hdiv : p / 2 = n := by omega
      rw [stamp2_apply, if_pos hp, ih, if_neg (by omega : ¬ p / 2 < n), hdiv,
        if_pos (Nat.lt_succ_self n)]
    · rw [stamp2_apply, if_neg hp, ih]
      have hne : p / 2 ≠ n := by omega
      by_cases hlt : p / 2 < n
      · rw [if_pos hlt, if_pos (by omega : p / 2 < n + 1)]
      · rw [if_neg hlt, if_neg (by omega : ¬ p / 2 < n + 1)]

/-- Byte-level contents of the mix buffer: positions whose byte-pair index
is below both read counts hold the wrapped sum of the two scaled bytes;
pairs only below the network count hold the scaled network byte alone;
pairs only below the player count stay uninitialized (`+=` on fresh
memory); pairs beyond both counts stay uninitialized. -/
theorem mixBuffer_apply (nl pl : ℚ) (nb pb : List Int) (p : Nat) :
    mixBuffer nl pl nb pb p
      = if p / 2 < pb.length then
          (if p / 2 < nb.length then
            some (wrap8 (charOfQ (nl * (nb.getD (p / 2) 0 : ℚ))
              + charOfQ (pl * (pb.getD (p / 2) 0 : ℚ))))
          else none)
        else if p / 2 < nb.length then
          some (charOfQ (nl * (nb.getD (p / 2) 0 : ℚ)))
        else none := by
  unfold mixBuffer
  rw [mixLoop2_apply, mixLoop1_apply]
  by_cases h2 : p / 2 < pb.length <;> by_cases h1 : p / 2 < nb.length <;>
    simp [h1, h2, Option.map]

/-- Closed form of setMixingLevel: the two conditional assignments
implement the clamp max(-1, min(1, L)). -/
theorem setMixingLevel_eq (L : ℚ) :
    Player.setMixingLevel L = ((1 - max (-1) (min 1 L)) / 2, (1 + max (-1) (min 1 L)) / 2) := by
  simp only [Player.setMixingLevel]
  rcases le_or_lt L (-1) with h1 | h1
  · rw [if_pos h1, if_neg (by norm_num : ¬ ((-1 : ℚ) ≥ 1))]
    rw [min_eq_right (by linarith : L ≤ (1 : ℚ)), max_eq_left h1]
  · rw [if_neg (by linarith : ¬ L ≤ (-1 : ℚ))]
    rcases le_or_lt 1 L with h2 | h2
    · rw [if_pos h2]
      rw [min_eq_left h2, max_eq_right (by norm_num : (-1 : ℚ) ≤ 1)]
    · rw [if_neg (not_le.mpr h2)]
      rw [min_eq_right (le_of_lt h2), max_eq_right (by linarith : (-1 : ℚ) ≤ L)]

/-- C3: Player::setMixingLevel clamps every input into [-1, 1] and never
rejects it, and the resulting gains are networkGain = (1 - clamped)/2 and
localGain = (1 + clamped)/2; hence for every level the two gains sum to 1
and each lies in [0, 1]; at level -1 the local (player) gain is 0, at
level 1 the network gain is 0, and at level 0 both gains are 1/2. -/
theorem C3_gain_law :
    (∀ L : ℚ,
      Player.setMixingLevel L = Player.setMixingLevel (max (-1) (min 1 L))
      ∧ (Player.setMixingLevel L).1 = (1 - max (-1) (min 1 L)) / 2
      ∧ (Player.setMixingLevel L).2 = (1 + max (-1) (min 1 L)) / 2
      ∧ (Player.setMixingLevel L).1 + (Player.setMixingLevel L).2 = 1
      ∧ 0 ≤ (Player.setMixingLevel L).1 ∧ (Player.setMixingLevel L).1 ≤ 1
      ∧ 0 ≤ (Player.setMixingLevel L).2 ∧ (Player.setMixingLevel L).2 ≤ 1)
    ∧ (Player.setMixingLevel (-1)).2 = 0
    ∧ (Player.setMixingLevel 1).1 = 0
    ∧ Player.setMixingLevel 0 = (1 / 2, 1 / 2) := by
  have hbounds : ∀ L : ℚ, -1 ≤ max (-1) (min 1 L) ∧ max (-1) (min 1 L) ≤ 1 := by
    intro L
    exact ⟨le_max_left _ _, max_le (by norm_num) (min_le_left _ _)⟩
  refine ⟨fun L => ?_, ?_, ?_, ?_⟩
  · obtain ⟨hlo, hhi⟩ := hbounds L
    have hclamp : max (-1) (min 1 (max (-1) (min 1 L))) = max (-1) (min 1 L) := by
      rw [min_eq_right hhi, max_eq_right hlo]
    rw [setMixingLevel_eq L, setMixingLevel_eq (max (-1) (min 1 L)), hclamp]
    refine ⟨rfl, rfl, rfl, by ring, by linarith, by linarith, by linarith, by linarith⟩
  · rw [setMixingLevel_eq]; norm_num
  · rw [setMixingLevel_eq]; norm_num
  · rw [setMixingLevel_eq]; norm_num

/-- C10: Player::open ignores both of its arguments — any two calls
produce identical engine configuration and touch the same four hard-coded
files: "audio1_s16le_mono_48k.raw" for the local source,
"audio2_s16le_mono_48k.raw" for the network-like source,
"audio_output.raw" for the output sink and "realtime_stats.txt" for the
stats sink. -/
theorem C10_open_ignores_args :
    (∀ u f u2 f2 : String, Player.openPlayer u f = Player.openPlayer u2 f2)
    ∧ (∀ u f : String,
        (Player.openPlayer u f).initFile = "audio1_s16le_mono_48k.raw"
        ∧ (Player.openPlayer u f).networkFile = "audio2_s16le_mono_48k.raw"
        ∧ (Player.openPlayer u f).sinkFile = "audio_output.raw"
        ∧ (Player.openPlayer u f).statsFile = "realtime_stats.txt") :=
  ⟨fun _ _ _ _ => rfl, fun _ _ => ⟨rfl, rfl, rfl, rfl⟩⟩

/-- C8 counterexample: with the input file missing, Player::init and
NetworkReader::initWaveform terminate the process with exit code 1; no
recoverable OpenError value is ever produced, contradicting the claim that
open() fails with a recoverable error and leaves the process running. -/
theorem C8_counterexample :
    Player.init none = OpenOutcome.processExit 1
    ∧ NetworkReader.initWaveform none = OpenOutcome.processExit 1
    ∧ Player.init none ≠ OpenOutcome.openError := by
  refine ⟨rfl, rfl, by decide⟩

/-- C8 amended: if an input source cannot be opened, init/initWaveform
print a message and terminate the whole process via exit(1); no error
value is returned to the caller (no input ever yields the recoverable
`openError`). -/
theorem C8_amended :
    (∀ file : Option (List Int),
      Player.init file ≠ OpenOutcome.openError
      ∧ NetworkReader.initWaveform file ≠ OpenOutcome.openError)
    ∧ Player.init none = OpenOutcome.processExit 1
    ∧ NetworkReader.initWaveform none = OpenOutcome.processExit 1 := by
  refine ⟨fun file => ?_, rfl, rfl⟩
  cases file <;> simp [Player.init, NetworkReader.initWaveform]

/-- C9 counterexample: a read with maxBytes = 1 on a stream holding one
remaining sample returns 0 bytes although the cursor (0) is not at the
stream length (1) — so a zero return does not imply end-of-stream. -/
theorem C9_counterexample :
    (NetworkReader.read [5] 0 1).bytes = 0
    ∧ (NetworkReader.read [5] 0 1).newIndex = 0
    ∧ (0 : Nat) ≠ ([5] : List Int).length := by
  decide

/-- C9 amended: for requests of at least one sample (maxBytes ≥ 2) a
source read returns 0 bytes exactly when the cursor has reached the
stream length, and at end-of-stream every read returns 0 with the cursor
unchanged, permanently; requests of maxBytes < 2 also return 0 without
advancing even before end-of-stream. -/
theorem C9_amended (saw : List Int) (idx mb : Nat) :
    (2 ≤ mb → ((NetworkReader.read saw idx mb).bytes = 0 ↔ saw.length ≤ idx))
    ∧ (saw.length ≤ idx → NetworkReader.read saw idx mb = ⟨0, idx, []⟩)
    ∧ (2 ≤ mb → ((Player.read saw idx mb).bytes = 0 ↔ saw.length ≤ idx))
    ∧ (saw.length ≤ idx → Player.read saw idx mb = ⟨0, idx, []⟩) := by
  have hpr : Player.read = NetworkReader.read := rfl
  have hiff : 2 ≤ mb → ((NetworkReader.read saw idx mb).bytes = 0 ↔ saw.length ≤ idx) := by
    intro hmb
    constructor
    · intro h0
      by_contra hlt
      exact read_pos_of_two_le saw idx mb hmb (by omega) h0
    · intro hle
      rw [read_zero_at_eos saw idx mb hle]
  exact ⟨hiff, read_zero_at_eos saw idx mb, by rw [hpr]; exact hiff,
    by rw [hpr]; exact read_zero_at_eos saw idx mb⟩

theorem C9_amended_witness :
    (NetworkReader.read [5, 7] 2 144).bytes = 0
    ∧ NetworkReader.read [5, 7] 2 144 = ⟨0, 2, []⟩ := by
  have h := C9_amended [5, 7] 2 144
  exact ⟨(h.1 (by decide)).mpr (by decide), h.2.1 (by decide)⟩

/-- Reading a request list splits at any point: the part after the split
continues exactly from the cursor the first part left behind. -/
theorem runReads_append (saw : List Int) (reqs1 reqs2 : List Nat) : ∀ idx : Nat,
    runReads saw idx (reqs1 ++ reqs2)
      = ⟨(runReads saw idx reqs1).samples
           + (runReads saw (runReads saw idx reqs1).finalIndex reqs2).samples,
         (runReads saw (runReads saw idx reqs1).finalIndex reqs2).finalIndex,
         (runReads saw idx reqs1).data
           ++ (runReads saw (runReads saw idx reqs1).finalIndex reqs2).data⟩ := by
  induction reqs1 with
  | nil => intro idx; simp [runReads]
  | cons r rs ih =>
    intro idx
    rw [List.cons_append]
    simp only [runReads]
    rw [ih]
    simp only [SessionResult.mk.injEq]
    refine ⟨by omega, by trivial, by simp [List.append_assoc]⟩

/-- C5: source cursors are monotonic — each read advances the cursor by
exactly the number of samples it returns and never resets it (both reader
implementations being identical); pause() leaves both cursors untouched;
a read session split at any pause point resumes exactly at the cursor
where it stopped, with the concatenated data unchanged; and once the
cursor has reached the stream length, the total samples ever read equals
the stream length and the data read is the whole stream — nothing
replayed, nothing skipped. -/
theorem C5_cursor_monotonic :
    (∀ saw : List Int, ∀ idx mb : Nat,
        idx ≤ (NetworkReader.read saw idx mb).newIndex
        ∧ (NetworkReader.read saw idx mb).newIndex
            = idx + (NetworkReader.read saw idx mb).bytes / 2)
    ∧ Player.read = NetworkReader.read
    ∧ (∀ now : Nat, ∀ ps : Player,
        (Player.pause now ps).m_sawIndex = ps.m_sawIndex
        ∧ (Player.pause now ps).nr_sawIndex = ps.nr_sawIndex)
    ∧ (∀ saw : List Int, ∀ idx : Nat, ∀ reqs1 reqs2 : List Nat,
        (runReads saw idx (reqs1 ++ reqs2)).finalIndex
          = (runReads saw (runReads saw idx reqs1).finalIndex reqs2).finalIndex
        ∧ (runReads saw idx (reqs1 ++ reqs2)).data
          = (runReads saw idx reqs1).data
              ++ (runReads saw (runReads saw idx reqs1).finalIndex reqs2).data)
    ∧ (∀ saw : List Int, ∀ reqs : List Nat,
        (runReads saw 0 reqs).finalIndex = saw.length →
        (runReads saw 0 reqs).samples = saw.length
        ∧ (runReads saw 0 reqs).data = saw) := by
  refine ⟨fun saw idx mb => ⟨read_idx_le saw idx mb, read_newIndex saw idx mb⟩, rfl,
    fun now ps => ⟨rfl, rfl⟩, fun saw idx reqs1 reqs2 => ?_, fun saw reqs heos => ?_⟩
  · rw [runReads_append]
    exact ⟨rfl, rfl⟩
  · obtain ⟨h1, h2, h3⟩ := runReads_spec saw reqs 0
    rw [heos] at h1 h3
    refine ⟨by omega, ?_⟩
    rw [h3]
    simp

theorem C5_witness :
    (runReads [3, 4] 0 [2, 144]).samples = 2
    ∧ (runReads [3, 4] 0 [2, 144]).data = [3, 4] := by
  have h := C5_cursor_monotonic.2.2.2.2 [3, 4] [2, 144] (by decide)
  simpa using h

/-- The cycle record produced by one pass through the body of
Player::play, as a function of the pre-state. -/
def playRec (clock : Nat → Nat) (k : Nat) (ps : Player) : PumpCycle :=
  let networkRead := (NetworkReader.read ps.nr_saw ps.nr_sawIndex ps.networkBytes).bytes
  let playerRead := (Player.read ps.m_saw ps.m_sawIndex ps.playerBytes).bytes
  ⟨networkRead, playerRead, clock k,
   ps.writtenSamples + wrap16 ((playerRead / 2 : Nat) + (networkRead / 2 : Nat)),
   2 * (networkRead + playerRead)⟩

/-- The object state after one pass through the body of Player::play. -/
def playNext (ps : Player) : Player :=
  { ps with
    paused := false
    nr_sawIndex := (NetworkReader.read ps.nr_saw ps.nr_sawIndex ps.networkBytes).newIndex
    m_sawIndex := (Player.read ps.m_saw ps.m_sawIndex ps.playerBytes).newIndex
    writtenSamples := ps.writtenSamples
      + wrap16 (((Player.read ps.m_saw ps.m_sawIndex ps.playerBytes).bytes / 2 : Nat)
        + ((NetworkReader.read ps.nr_saw ps.nr_sawIndex ps.networkBytes).bytes / 2 : Nat)) }

/-- One unfolding of Player.play, stated through `playRec`/`playNext`. -/
theorem play_step (clock : Nat → Nat) (k : Nat) (ps : Player) :
    Player.play clock k ps
      = if (Player.read ps.m_saw ps.m_sawIndex ps.playerBytes).bytes = 0
           ∧ (NetworkReader.read ps.nr_saw ps.nr_sawIndex ps.networkBytes).bytes = 0 then
          ([playRec clock k ps], playNext ps)
        else
          ((playRec clock k ps) :: (Player.play clock (k + 1) (playNext ps)).1,
           (Player.play clock (k + 1) (playNext ps)).2) := by
  conv_lhs => rw [Player.play.eq_def]
  dsimp only
  by_cases h : (Player.read ps.m_saw ps.m_sawIndex ps.playerBytes).bytes = 0
      ∧ (NetworkReader.read ps.nr_saw ps.nr_sawIndex ps.networkBytes).bytes = 0
  · rw [if_pos h, if_pos h]
    rfl
  · rw [if_neg h, if_neg h, if_neg (fun hcc => Bool.noConfusion hcc)]
    rfl

/-- Remaining unread samples across both sources; the quantity each
recursive call of play strictly decreases while data remains. -/
def playMeasure (ps : Player) : Nat :=
  (ps.nr_saw.length - ps.nr_sawIndex) + (ps.m_saw.length - ps.m_sawIndex)

theorem playNext_measure_lt (ps : Player)
    (h : ¬((Player.read ps.m_saw ps.m_sawIndex ps.playerBytes).bytes = 0
        ∧ (NetworkReader.read ps.nr_saw ps.nr_sawIndex ps.networkBytes).bytes = 0)) :
    playMeasure (playNext ps) < playMeasure ps := by
  have hpr : Player.read = NetworkReader.read := rfl
  rw [hpr] at h
  unfold playMeasure playNext
  simp only
  rw [hpr]
  have hn1 := read_newIndex ps.nr_saw ps.nr_sawIndex ps.networkBytes
  have hp1 := read_newIndex ps.m_saw ps.m_sawIndex ps.playerBytes
  by_cases ha : (NetworkReader.read ps.nr_saw ps.nr_sawIndex ps.networkBytes).bytes = 0
  · have hb : (NetworkReader.read ps.m_saw ps.m_sawIndex ps.playerBytes).bytes ≠ 0 := by tauto
    have hprog := read_progress ps.m_saw ps.m_sawIndex ps.playerBytes hb
    omega
  · have hprog := read_progress ps.nr_saw ps.nr_sawIndex ps.networkBytes ha
    by_cases hb : (NetworkReader.read ps.m_saw ps.m_sawIndex ps.playerBytes).bytes = 0
    · omega
    · have hprog2 := read_progress ps.m_saw ps.m_sawIndex ps.playerBytes hb
      omega

theorem play_bothZero_last_aux : ∀ M : Nat, ∀ (clock : Nat → Nat) (k : Nat) (ps : Player),
    playMeasure ps = M →
    ∀ j : Nat, j < (Player.play clock k ps).1.length
    → ((Player.play clock k ps).1.getD j default).networkRead = 0
    → ((Player.play clock k ps).1.getD j default).playerRead = 0
    → j + 1 = (Player.play clock k ps).1.length := by
  intro M
  induction M using Nat.strong_induction_on with
  | _ M ih =>
  intro clock k ps hM j hj h1 h2
  rw [play_step] at hj h1 h2 ⊢
  by_cases hstop : (Player.read ps.m_saw ps.m_sawIndex ps.playerBytes).bytes = 0
      ∧ (NetworkReader.read ps.nr_saw ps.nr_sawIndex ps.networkBytes).bytes = 0
  · rw [if_pos hstop] at hj ⊢
    simp only [List.length_cons, List.length_nil] at hj ⊢
    omega
  · rw [if_neg hstop] at hj h1 h2 ⊢
    cases j with
    | zero =>
      exfalso
      simp only [List.getD_cons_zero] at h1 h2
      exact hstop ⟨by simpa [playRec] using h2, by simpa [playRec] using h1⟩
    | succ j =>
      simp only [List.getD_cons_succ] at h1 h2
      simp only [List.length_cons] at hj ⊢
      have hlt : playMeasure (playNext ps) < M := hM ▸ playNext_measure_lt ps hstop
      have hrec := ih (playMeasure (playNext ps)) hlt clock (k + 1) (playNext ps) rfl
        j (by omega) h1 h2
      omega

/-- C4: in every run of the pump loop, a cycle in which both sources
return 0 bytes is the final cycle of the trace — the recursion stops
there, so no stats record and no sink write follow it; playback has
stopped (the loop exits and the play() call returns). -/
theorem C4_eos_terminates (clock : Nat → Nat) (k : Nat) (ps : Player) (j : Nat)
    (hj : j < (Player.play clock k ps).1.length)
    (h1 : ((Player.play clock k ps).1.getD j default).networkRead = 0)
    (h2 : ((Player.play clock k ps).1.getD j default).playerRead = 0) :
    j + 1 = (Player.play clock k ps).1.length :=
  play_bothZero_last_aux (playMeasure ps) clock k ps rfl j hj h1 h2

theorem C4_witness :
    0 + 1 = (Player.play (fun t => t) 0
      ⟨1/2, 1/2, [], 0, [], 0, 144, 144, 0, 0, 0, false⟩).1.length := by
  have he : (Player.play (fun t => t) 0
      ⟨1/2, 1/2, [], 0, [], 0, 144, 144, 0, 0, 0, false⟩).1 = [⟨0, 0, 0, 0, 0⟩] := by
    rw [play_step, if_pos (by decide)]
    rfl
  exact C4_eos_terminates (fun t => t) 0 _ 0 (by rw [he]; decide) (by rw [he]; decide)
    (by rw [he]; decide)

theorem play_drains_aux : ∀ M : Nat, ∀ (clock : Nat → Nat) (k : Nat) (ps : Player),
    playMeasure ps = M
    → ps.networkBytes = 144 → ps.playerBytes = 144
    → ps.nr_sawIndex ≤ ps.nr_saw.length → ps.m_sawIndex ≤ ps.m_saw.length
    → 1 ≤ (Player.play clock k ps).1.length
      ∧ (Player.play clock k ps).2.nr_sawIndex = ps.nr_saw.length
      ∧ (Player.play clock k ps).2.m_sawIndex = ps.m_saw.length := by
  intro M
  induction M using Nat.strong_induction_on with
  | _ M ih =>
  intro clock k ps hM hn hp hni hpi
  have hpr : Player.read = NetworkReader.read := rfl
  rw [play_step]
  by_cases hstop : (Player.read ps.m_saw ps.m_sawIndex ps.playerBytes).bytes = 0
      ∧ (NetworkReader.read ps.nr_saw ps.nr_sawIndex ps.networkBytes).bytes = 0
  · rw [if_pos hstop]
    obtain ⟨hp0, hn0⟩ := hstop
    rw [hpr] at hp0
    refine ⟨by simp, ?_, ?_⟩
    · show (NetworkReader.read ps.nr_saw ps.nr_sawIndex ps.networkBytes).newIndex
        = ps.nr_saw.length
      have h1 := read_newIndex ps.nr_saw ps.nr_sawIndex ps.networkBytes
      by_cases hlt : ps.nr_sawIndex < ps.nr_saw.length
      · exact absurd hn0 (read_pos_of_two_le ps.nr_saw ps.nr_sawIndex ps.networkBytes
          (by omega) hlt)
      · omega
    · show (Player.read ps.m_saw ps.m_sawIndex ps.playerBytes).newIndex = ps.m_saw.length
      rw [hpr]
      have h1 := read_newIndex ps.m_saw ps.m_sawIndex ps.playerBytes
      by_cases hlt : ps.m_sawIndex < ps.m_saw.length
      · exact absurd hp0 (read_pos_of_two_le ps.m_saw ps.m_sawIndex ps.playerBytes
          (by omega) hlt)
      · omega
  · rw [if_neg hstop]
    have hlt : playMeasure (playNext ps) < M := hM ▸ playNext_measure_lt ps hstop
    have hni2 : (playNext ps).nr_sawIndex ≤ (playNext ps).nr_saw.length :=
      read_newIndex_le_length ps.nr_saw ps.nr_sawIndex ps.networkBytes hni
    have hpi2 : (playNext ps).m_sawIndex ≤ (playNext ps).m_saw.length := by
      show (Player.read ps.m_saw ps.m_sawIndex ps.playerBytes).newIndex ≤ ps.m_saw.length
      rw [hpr]
      exact read_newIndex_le_length ps.m_saw ps.m_sawIndex ps.playerBytes hpi
    have hrec := ih (playMeasure (playNext ps)) hlt clock (k + 1) (playNext ps) rfl
      hn hp hni2 hpi2
    exact ⟨by simp, hrec.2.1, hrec.2.2⟩

/-- C7 refutation: play() is not asynchronous — called on an opened player
(144-byte budgets, valid cursors) it performs at least one full cycle of
source reads and sink/stats writes itself and only returns once both source
cursors have reached end-of-stream (or a concurrent pause intervenes):
the whole pump loop, including the rate-limited network reads, runs on the
caller's thread, contradicting the header's own "No function is supposed
to block!" contract. -/
theorem C7_play_blocks (clock : Nat → Nat) (k : Nat) (ps : Player)
    (hn : ps.networkBytes = 144) (hp : ps.playerBytes = 144)
    (hni : ps.nr_sawIndex ≤ ps.nr_saw.length) (hpi : ps.m_sawIndex ≤ ps.m_saw.length) :
    1 ≤ (Player.play clock k ps).1.length
    ∧ (Player.play clock k ps).2.nr_sawIndex = ps.nr_saw.length
    ∧ (Player.play clock k ps).2.m_sawIndex = ps.m_saw.length :=
  play_drains_aux (playMeasure ps) clock k ps rfl hn hp hni hpi

theorem C7_witness :
    1 ≤ (Player.play (fun t => t) 0
        ⟨1/2, 1/2, [7, 8], 0, [9], 0, 144, 144, 0, 0, 0, false⟩).1.length
    ∧ (Player.play (fun t => t) 0
        ⟨1/2, 1/2, [7, 8], 0, [9], 0, 144, 144, 0, 0, 0, false⟩).2.nr_sawIndex = 1
    ∧ (Player.play (fun t => t) 0
        ⟨1/2, 1/2, [7, 8], 0, [9], 0, 144, 144, 0, 0, 0, false⟩).2.m_sawIndex = 2 := by
  have h := C7_play_blocks (fun t => t) 0
    ⟨1/2, 1/2, [7, 8], 0, [9], 0, 144, 144, 0, 0, 0, false⟩ rfl rfl (by decide) (by decide)
  exact ⟨h.1, h.2.1, h.2.2⟩

theorem wrap16_eq_self (n : Int) (h0 : 0 ≤ n) (h1 : n ≤ 32767) : wrap16 n = n := by
  unfold wrap16
  omega

/-- Relation between consecutive stats records as Player::play writes
them: stopwatch readings do not decrease, and each record's cumulative
counter is the previous one plus that cycle's `playerRead/2 +
networkRead/2` sample count. -/
def statsStep (a b : PumpCycle) : Prop :=
  a.statsElapsed ≤ b.statsElapsed
  ∧ b.statsSamples = a.statsSamples
      + (((b.playerRead / 2 : Nat) : Int) + ((b.networkRead / 2 : Nat) : Int))

theorem statsStep_start (clock : Nat → Nat) (k : Nat) (ps : Player)
    (hn : ps.networkBytes = 144) (hp : ps.playerBytes = 144) :
    statsStep ⟨0, 0, clock k, ps.writtenSamples, 0⟩ (playRec clock k ps) := by
  have hpr : Player.read = NetworkReader.read := rfl
  refine ⟨le_refl _, ?_⟩
  show ps.writtenSamples
      + wrap16 (((Player.read ps.m_saw ps.m_sawIndex ps.playerBytes).bytes / 2 : Nat)
        + ((NetworkReader.read ps.nr_saw ps.nr_sawIndex ps.networkBytes).bytes / 2 : Nat))
    = ps.writtenSamples
      + ((((Player.read ps.m_saw ps.m_sawIndex ps.playerBytes).bytes / 2 : Nat) : Int)
        + (((NetworkReader.read ps.nr_saw ps.nr_sawIndex ps.networkBytes).bytes / 2 : Nat) : Int))
  have hb1 := read_bytes_le ps.nr_saw ps.nr_sawIndex ps.networkBytes
  have hb2 := read_bytes_le ps.m_saw ps.m_sawIndex ps.playerBytes
  rw [hpr, wrap16_eq_self _ (by positivity) (by omega)]

theorem play_stats_chain_aux : ∀ M : Nat, ∀ (clock : Nat → Nat) (k : Nat) (ps : Player),
    playMeasure ps = M
    → (∀ i j : Nat, i ≤ j → clock i ≤ clock j)
    → ps.networkBytes = 144 → ps.playerBytes = 144
    → List.Chain' statsStep
        ((⟨0, 0, clock k, ps.writtenSamples, 0⟩ : PumpCycle) :: (Player.play clock k ps).1) := by
  intro M
  induction M using Nat.strong_induction_on with
  | _ M ih =>
  intro clock k ps hM hmono hn hp
  rw [play_step]
  by_cases hstop : (Player.read ps.m_saw ps.m_sawIndex ps.playerBytes).bytes = 0
      ∧ (NetworkReader.read ps.nr_saw ps.nr_sawIndex ps.networkBytes).bytes = 0
  · rw [if_pos hstop]
    exact List.chain'_cons.mpr ⟨statsStep_start clock k ps hn hp, List.chain'_singleton _⟩
  · rw [if_neg hstop]
    have hlt : playMeasure (playNext ps) < M := hM ▸ playNext_measure_lt ps hstop
    have hchain := ih (playMeasure (playNext ps)) hlt clock (k + 1) (playNext ps) rfl
      hmono hn hp
    refine List.chain'_cons.mpr ⟨statsStep_start clock k ps hn hp, ?_⟩
    rcases hrest : (Player.play clock (k + 1) (playNext ps)).1 with _ | ⟨b, t⟩
    · simp
    · rw [hrest] at hchain
      obtain ⟨hfirst, htail⟩ := List.chain'_cons.mp hchain
      refine List.chain'_cons.mpr ⟨⟨?_, hfirst.2⟩, htail⟩
      exact le_trans (hmono k (k + 1) (Nat.le_succ k)) hfirst.1

/-- Evaluation helper: charOfQ through the numerator/denominator of its
argument. -/
theorem charOfQ_eval (q : ℚ) (a : Int) (b : Nat) (hn : q.num = a) (hd : q.den = b) :
    charOfQ q = wrap8 (Int.tdiv a b) := by
  unfold charOfQ truncQ
  rw [hn, hd]

/-- C1 refutation: with both gains 1/2 (the default) and one 16-bit sample
of value 256 (S16LE bytes [0, 1]) arriving from each source, the spec's law
yields the single stereo frame (256, 256) — byte stream [0, 1, 0, 1] — but
Player::play scales, truncates and duplicates each raw BYTE separately
(no per-sample rounding or clamping) and writes 8 bytes: [0, 0, 0, 0]
followed by four uninitialized bytes. The emitted bytes disagree with the
spec's frames at every defined position. -/
theorem C1_byte_mixing_bug :
    bytesOfSamples [256] = [0, 1]
    ∧ emittedBytes (1/2) (1/2) (bytesOfSamples [256]) (bytesOfSamples [256])
        = [some 0, some 0, some 0, some 0, none, none, none, none]
    ∧ specMixFrames (1/2) (1/2) [256] [256] = [(256, 256)]
    ∧ framesToBytes (specMixFrames (1/2) (1/2) [256] [256]) = [0, 1, 0, 1]
    ∧ emittedBytes (1/2) (1/2) (bytesOfSamples [256]) (bytesOfSamples [256])
        ≠ (framesToBytes (specMixFrames (1/2) (1/2) [256] [256])).map some := by
  have hb : bytesOfSamples [256] = [0, 1] := by decide
  have hcode : emittedBytes (1/2) (1/2) (bytesOfSamples [256]) (bytesOfSamples [256])
      = [some 0, some 0, some 0, some 0, none, none, none, none] := by
    rw [hb]
    have hrange : List.range (2 * (([0, 1] : List Int).length + ([0, 1] : List Int).length))
        = [0, 1, 2, 3, 4, 5, 6, 7] := by decide
    unfold emittedBytes
    rw [hrange]
    simp only [List.map, mixBuffer_apply]
    norm_num
    rw [charOfQ_eval _ 0 1 (by norm_num) (by norm_num),
      charOfQ_eval _ 1 2 (by norm_num) (by norm_num)]
    decide
  have hround : round ((1/2 : ℚ) * ((256 : Int) : ℚ) + (1/2 : ℚ) * ((256 : Int) : ℚ)) = 256 := by
    rw [round_eq, Int.floor_eq_iff]
    norm_num
  have hspec : specMixFrames (1/2) (1/2) [256] [256] = [(256, 256)] := by
    unfold specMixFrames
    have hr1 : List.range (max ([256] : List Int).length ([256] : List Int).length) = [0] := by
      decide
    rw [hr1]
    simp only [List.map, List.getD_cons_zero]
    rw [hround]
    norm_num [clamp16]
  have hbytes : framesToBytes [((256 : Int), (256 : Int))] = [0, 1, 0, 1] := by decide
  refine ⟨hb, hcode, hspec, by rw [hspec]; exact hbytes, ?_⟩
  rw [hcode, hspec, hbytes]
  decide

/-- C2 counterexample: a cycle in which the network-like source yields
10 samples (20 bytes) and the local source 6 samples (12 bytes) writes
2*(20+12) = 64 bytes to the sink — 16 stereo-frame-widths, not the
claimed max(10, 6) = 10 MixFrames (which would be 40 bytes). -/
theorem C2_counterexample :
    (Player.play (fun t => t) 0
        ⟨1/2, 1/2, [1, 2, 3, 4, 5, 6], 0, [1, 2, 3, 4, 5, 6, 7, 8, 9, 10], 0,
         144, 144, 0, 0, 0, false⟩).1
      = [⟨20, 12, 0, 16, 64⟩, ⟨0, 0, 1, 16, 0⟩]
    ∧ (64 : Nat) ≠ 4 * max 10 6 := by
  constructor
  · rw [play_step, if_neg (by decide), play_step, if_pos (by decide)]
    rfl
  · decide

/-- C2 amended: a pump cycle writes 2*(networkRead + playerRead) bytes to
the sink (one byte pair per byte of each source, i.e. nSamples + lSamples
stereo-frame-widths, not max); within the mix buffer, byte pairs at or
beyond the player read but below the network read hold the scaled network
byte alone (the exhausted source contributes nothing there), and every
byte pair at or beyond the network read is uninitialized memory. -/
theorem C2_amended (nl pl : ℚ) (nb pb : List Int) :
    (emittedBytes nl pl nb pb).length = 2 * (nb.length + pb.length)
    ∧ (∀ p : Nat, pb.length ≤ p / 2 → p / 2 < nb.length →
        mixBuffer nl pl nb pb p = some (charOfQ (nl * (nb.getD (p / 2) 0 : ℚ))))
    ∧ (∀ p : Nat, nb.length ≤ p / 2 → p / 2 < pb.length →
        mixBuffer nl pl nb pb p = none)
    ∧ (∀ p : Nat, nb.length ≤ p / 2 → pb.length ≤ p / 2 →
        mixBuffer nl pl nb pb p = none) := by
  refine ⟨by simp [emittedBytes], fun p h1 h2 => ?_, fun p h1 h2 => ?_, fun p h1 h2 => ?_⟩
  · rw [mixBuffer_apply, if_neg (by omega), if_pos h2]
  · rw [mixBuffer_apply, if_pos h2, if_neg (by omega)]
  · rw [mixBuffer_apply, if_neg (by omega), if_neg (by omega)]

theorem C2_amended_witness :
    (emittedBytes (1/2) (1/2) [10, 0] []).length = 4
    ∧ mixBuffer (1/2) (1/2) [10, 0] [] 0 = some 5 := by
  have h := C2_amended (1/2) (1/2) [10, 0] []
  refine ⟨by simpa using h.1, ?_⟩
  have h2 := h.2.1 0 (by decide) (by decide)
  rw [h2, charOfQ_eval _ 5 1 (by norm_num) (by norm_num)]
  decide

/-- C6 counterexample: in the 10-network-sample / 6-local-sample cycle the
stats record's cumulative count grows by 10 + 6 = 16 samples, not by the
mixing length max(10, 6) = 10 the claim prescribes. -/
theorem C6_counterexample :
    ((Player.play (fun t => t) 0
        ⟨1/2, 1/2, [1, 2, 3, 4, 5, 6], 0, [1, 2, 3, 4, 5, 6, 7, 8, 9, 10], 0,
         144, 144, 0, 0, 0, false⟩).1.getD 0 default).statsSamples = 16
    ∧ ((Player.play (fun t => t) 0
        ⟨1/2, 1/2, [1, 2, 3, 4, 5, 6], 0, [1, 2, 3, 4, 5, 6, 7, 8, 9, 10], 0,
         144, 144, 0, 0, 0, false⟩).1.getD 0 default).networkRead = 20
    ∧ ((Player.play (fun t => t) 0
        ⟨1/2, 1/2, [1, 2, 3, 4, 5, 6], 0, [1, 2, 3, 4, 5, 6, 7, 8, 9, 10], 0,
         144, 144, 0, 0, 0, false⟩).1.getD 0 default).playerRead = 12
    ∧ (16 : Int) ≠ ((max (20 / 2) (12 / 2) : Nat) : Int) := by
  have he : (Player.play (fun t => t) 0
      ⟨1/2, 1/2, [1, 2, 3, 4, 5, 6], 0, [1, 2, 3, 4, 5, 6, 7, 8, 9, 10], 0,
       144, 144, 0, 0, 0, false⟩).1
      = [⟨20, 12, 0, 16, 64⟩, ⟨0, 0, 1, 16, 0⟩] := by
    rw [play_step, if_neg (by decide), play_step, if_pos (by decide)]
    rfl
  rw [he]
  refine ⟨rfl, rfl, rfl, by decide⟩

/-- C6 amended: Player::play appends exactly one stats record per pump
cycle (including the final empty one); each record's cumulative count is
the previous count plus that cycle's playerRead/2 + networkRead/2 — the
SUM of the two sources' sample counts, not the mixing length — and, with
the 144-byte budgets installed by open() and a monotone stopwatch, both
the elapsed field and the cumulative count are non-decreasing along the
whole record sequence. -/
theorem C6_amended (clock : Nat → Nat) (hmono : ∀ i j : Nat, i ≤ j → clock i ≤ clock j)
    (k : Nat) (ps : Player) (hn : ps.networkBytes = 144) (hp : ps.playerBytes = 144) :
    List.Chain' statsStep
      ((⟨0, 0, clock k, ps.writtenSamples, 0⟩ : PumpCycle) :: (Player.play clock k ps).1)
    ∧ List.Chain' (fun a b => a.statsElapsed ≤ b.statsElapsed ∧ a.statsSamples ≤ b.statsSamples)
      ((⟨0, 0, clock k, ps.writtenSamples, 0⟩ : PumpCycle) :: (Player.play clock k ps).1) := by
  have h := play_stats_chain_aux (playMeasure ps) clock k ps rfl hmono hn hp
  refine ⟨h, List.Chain'.imp ?_ h⟩
  intro a b hab
  refine ⟨hab.1, ?_⟩
  have h2 := hab.2
  have hpos : (0 : Int) ≤ ((b.playerRead / 2 : Nat) : Int) + ((b.networkRead / 2 : Nat) : Int) := by
    positivity
  omega

theorem C6_amended_witness :
    List.Chain' statsStep
      ((⟨0, 0, 0, 0, 0⟩ : PumpCycle)
        :: (Player.play (fun t => t) 0 ⟨1/2, 1/2, [], 0, [9], 0, 144, 144, 0, 0, 0, false⟩).1) :=
  (C6_amended (fun t => t) (fun i j h => h) 0
    ⟨1/2, 1/2, [], 0, [9], 0, 144, 144, 0, 0, 0, false⟩ rfl rfl).1
